import Mathlib

/-!
Verification of the CHIP-8 virtual processor core of this repository
(package `chip8`): a shallow embedding of the processor state, the
instruction handlers, the bulk memory operations and the fetch-execute
step, together with theorems settling the specified properties.

Machine integers are modelled as `Nat` with explicit reduction:
`% 256` for Go `byte`/`uint8`, `% 65536` for `uint16`, `% 4294967296`
for `uint32`.  A Go `panic` (stack overflow/underflow, unknown opcode,
program runaway, out-of-range array index, division by zero,
insufficient memory at load) is modelled as `Except.error`.
-/

namespace Chip8

/-- Fatal conditions of the core; each corresponds to a `panic` site in
the Go source. -/
inductive Err where
  | stackOverflow
  | stackUnderflow
  | unknownOpcode
  | programRunaway
  | indexOutOfRange
  | divideByZero
  | insufficientMemory
deriving DecidableEq

/-- Pointwise update of a `Nat`-indexed array model (`arr[k] = val`). -/
def upd (f : Nat → Nat) (k val : Nat) : Nat → Nat :=
  fun a => if a = k then val else f a

/-- The `Processor` struct of `cpu.go`: 4096 bytes of memory, 16
8-bit registers `v`, 16 key flags, a 64x32 display of byte cells, a
16-slot return stack with stack pointer `sp`, program counter `pc`,
index register `i`, the two timers, and the time of the last timer
tick (`lastTimerUpdate`, in nanoseconds).  Arrays are total functions
out of `Nat`; only the indices the Go arrays have are ever relevant. -/
structure Processor where
  memory : Nat → Nat
  v : Nat → Nat
  keyState : Nat → Bool
  display : Nat → Nat
  stack : Nat → Nat
  sp : Nat
  pc : Nat
  i : Nat
  delay : Nat
  sound : Nat
  lastTimerUpdate : Nat

/-- The all-zero processor (the result of Go zero-initialisation,
before the font set is written). -/
def zeroProc : Processor :=
  { memory := fun _ => 0, v := fun _ => 0, keyState := fun _ => false,
    display := fun _ => 0, stack := fun _ => 0, sp := 0, pc := 0,
    i := 0, delay := 0, sound := 0, lastTimerUpdate := 0 }

/-- Go constant `CarryFlag uint8 = 0xF`. -/
def CarryFlag : Nat := 0xF

/-- Go constant `FontStartAddress uint16 = 0x50`. -/
def FontStartAddress : Nat := 0x50

/-- Go constant `ProgramStartAddress uint16 = 0x200`. -/
def ProgramStartAddress : Nat := 0x200

/-- Opcode 00E0: `clearScreen` zeroes every display cell (the `Redraw`
flag it raises is produced by `execute`). -/
def clearScreen (p : Processor) : Processor :=
  { p with display := fun _ => 0 }

/-- Opcode 2NNN: `callSubroutine` pushes `pc` onto the fixed 16-slot
stack and jumps; `panic("stack overflow")` when `sp >= len(stack)`. -/
def callSubroutine (nnn : Nat) (p : Processor) : Except Err Processor :=
  if 16 ≤ p.sp then .error .stackOverflow
  else .ok { p with stack := upd p.stack p.sp p.pc, sp := p.sp + 1, pc := nnn }

/-- Opcode 00EE: `returnFromSubroutine` pops the return address;
`panic("stack underflow")` when `sp == 0`. -/
def returnFromSubroutine (p : Processor) : Except Err Processor :=
  if p.sp = 0 then .error .stackUnderflow
  else .ok { p with sp := p.sp - 1, pc := p.stack (p.sp - 1) }

/-- Opcode 1NNN: `jumpToLocation`. -/
def jumpToLocation (nnn : Nat) (p : Processor) : Processor :=
  { p with pc := nnn }

/-- Opcode BNNN: `jumpWithOffset` (`cpu.pc = nnn + uint16(cpu.v[0x0])`). -/
def jumpWithOffset (nnn : Nat) (p : Processor) : Processor :=
  { p with pc := (nnn + p.v 0) % 65536 }

/-- Opcode 3XNN: `stepIfXEqualsNN`. -/
def stepIfXEqualsNN (x nn : Nat) (p : Processor) : Processor :=
  if p.v x = nn % 256 then { p with pc := (p.pc + 2) % 65536 } else p

/-- Opcode 4XNN: `stepIfXNotEqualsNN`. -/
def stepIfXNotEqualsNN (x nn : Nat) (p : Processor) : Processor :=
  if p.v x ≠ nn % 256 then { p with pc := (p.pc + 2) % 65536 } else p

/-- Opcode 5XY0: `stepIfXEqualsY`. -/
def stepIfXEqualsY (x y : Nat) (p : Processor) : Processor :=
  if p.v x = p.v y then { p with pc := (p.pc + 2) % 65536 } else p

/-- Opcode 9XY0: `stepIfXNotEqualsY`. -/
def stepIfXNotEqualsY (x y : Nat) (p : Processor) : Processor :=
  if p.v x ≠ p.v y then { p with pc := (p.pc + 2) % 65536 } else p

/-- Opcode 6XNN: `setXToNN` (`cpu.v[x] = byte(nn)`). -/
def setXToNN (x nn : Nat) (p : Processor) : Processor :=
  { p with v := upd p.v x (nn % 256) }

/-- Opcode 7XNN: `addNNToX` (`cpu.v[x] += byte(nn)`, 8-bit wraparound). -/
def addNNToX (x nn : Nat) (p : Processor) : Processor :=
  { p with v := upd p.v x ((p.v x + nn % 256) % 256) }

/-- Opcode 8XY0: `setXToY`. -/
def setXToY (x y : Nat) (p : Processor) : Processor :=
  { p with v := upd p.v x (p.v y) }

/-- Opcode 8XY1: `orXY` resets the carry flag first, then
`cpu.v[x] |= cpu.v[y]` (operands read after the reset). -/
def orXY (x y : Nat) (p : Processor) : Processor :=
  let p1 := { p with v := upd p.v CarryFlag 0 }
  { p1 with v := upd p1.v x (Nat.lor (p1.v x) (p1.v y)) }

/-- Opcode 8XY2: `andXY` resets the carry flag first, then
`cpu.v[x] &= cpu.v[y]`. -/
def andXY (x y : Nat) (p : Processor) : Processor :=
  let p1 := { p with v := upd p.v CarryFlag 0 }
  { p1 with v := upd p1.v x (Nat.land (p1.v x) (p1.v y)) }

/-- Opcode 8XY3: `xorXY` resets the carry flag first, then
`cpu.v[x] ^= cpu.v[y]`. -/
def xorXY (x y : Nat) (p : Processor) : Processor :=
  let p1 := { p with v := upd p.v CarryFlag 0 }
  { p1 with v := upd p1.v x (Nat.xor (p1.v x) (p1.v y)) }

/-- Opcode 8XY4: `addXY` computes the 16-bit sum first, resets the
carry flag, sets it to 1 when the sum exceeds 255, then stores
`byte(sum & 0xFF)` in `v[x]`. -/
def addXY (x y : Nat) (p : Processor) : Processor :=
  let sum := p.v x + p.v y
  let p1 := { p with v := upd p.v CarryFlag 0 }
  let p2 := if 255 < sum then { p1 with v := upd p1.v CarryFlag 1 } else p1
  { p2 with v := upd p2.v x (sum % 256) }

/-- Opcode 8XY5: `subtractYFromX` resets the carry flag, sets it to 1
when `cpu.v[x] >= cpu.v[y]` (both read after the reset), then
`cpu.v[x] -= cpu.v[y]` with 8-bit wraparound. -/
def subtractYFromX (x y : Nat) (p : Processor) : Processor :=
  let p1 := { p with v := upd p.v CarryFlag 0 }
  let p2 := if p1.v y ≤ p1.v x then { p1 with v := upd p1.v CarryFlag 1 } else p1
  { p2 with v := upd p2.v x ((p2.v x + 256 - p2.v y) % 256) }

/-- Opcode 8XY7: `subtractXFromY` resets the carry flag, sets it to 1
when `cpu.v[y] >= cpu.v[x]`, then `cpu.v[x] = cpu.v[y] - cpu.v[x]`
with 8-bit wraparound. -/
def subtractXFromY (x y : Nat) (p : Processor) : Processor :=
  let p1 := { p with v := upd p.v CarryFlag 0 }
  let p2 := if p1.v x ≤ p1.v y then { p1 with v := upd p1.v CarryFlag 1 } else p1
  { p2 with v := upd p2.v x ((p2.v y + 256 - p2.v x) % 256) }

/-- Opcode 8XY6: `shiftRightX` stores the shifted-out low bit in the
carry flag, then `cpu.v[x] >>= 1` (read after the flag write). -/
def shiftRightX (x : Nat) (p : Processor) : Processor :=
  let p1 := { p with v := upd p.v CarryFlag (Nat.land (p.v x) 0x1) }
  { p1 with v := upd p1.v x (p1.v x / 2) }

/-- Opcode 8XYE: `shiftLeftX` stores the shifted-out high bit
`(cpu.v[x] & 0x80) >> 7` in the carry flag, then `cpu.v[x] <<= 1`
(read after the flag write, 8-bit wraparound). -/
def shiftLeftX (x : Nat) (p : Processor) : Processor :=
  let p1 := { p with v := upd p.v CarryFlag (Nat.shiftRight (Nat.land (p.v x) 0x80) 7) }
  { p1 with v := upd p1.v x ((p1.v x * 2) % 256) }

/-- Opcode ANNN: `setIToNNN`. -/
def setIToNNN (nnn : Nat) (p : Processor) : Processor :=
  { p with i := nnn }

/-- Opcode CXNN: `setXToRandom`; the random byte drawn from
`rand.Uint32N(256)` is supplied as the explicit parameter `rnd`
(`cpu.v[x] = randomByte & byte(nn)`). -/
def setXToRandom (rnd x nn : Nat) (p : Processor) : Processor :=
  { p with v := upd p.v x (Nat.land (rnd % 256) (nn % 256)) }

/-- Start column of a sprite in `Emulator.drawSprite`:
`startX := uint16(x) % uint16(width)` with the package constant
`width = 64`. -/
def spriteStartX (vx : Nat) : Nat := vx % 64

/-- Start row of a sprite in `Emulator.drawSprite`:
`startY := uint16(y) % uint16(height)`.  `height` here is the sprite
height PARAMETER of `drawSprite`, which shadows the 32-row package
constant `height`, so the row wraps modulo the sprite height operand. -/
def spriteStartY (vy hgt : Nat) : Nat := vy % hgt

/-- Opcode DXYN as present in the source (`Emulator.drawSprite`): the
wrapped start coordinates are computed (a `% 0` is a Go runtime panic
when the height operand is 0) and the collision flag `v[0xF]` is reset
to 0; no pixel blitting is present in the source. -/
def drawSprite (vx vy n : Nat) (p : Processor) : Except Err Processor :=
  if n % 256 = 0 then .error .divideByZero
  else
    let _sx := spriteStartX vx
    let _sy := spriteStartY vy (n % 256)
    .ok { p with v := upd p.v CarryFlag 0 }

/-- Opcode EX9E: `stepIfKeyDown` (`key := cpu.v[x] & 0x0F`). -/
def stepIfKeyDown (x : Nat) (p : Processor) : Processor :=
  if p.keyState (Nat.land (p.v x) 0xF) then { p with pc := (p.pc + 2) % 65536 } else p

/-- Opcode EXA1: `stepIfKeyUp`. -/
def stepIfKeyUp (x : Nat) (p : Processor) : Processor :=
  if ¬ p.keyState (Nat.land (p.v x) 0xF) then { p with pc := (p.pc + 2) % 65536 } else p

/-- Opcode FX07: `setXToDelay`. -/
def setXToDelay (x : Nat) (p : Processor) : Processor :=
  { p with v := upd p.v x p.delay }

/-- The ascending key scan of `pauseUntilKeyPressed`: the Go loop
`for i := range uint8(len(cpu.keyState))` stopping at the first
pressed key. -/
def scanKeys (ks : Nat → Bool) (i : Nat) : Option Nat :=
  if h : i < 16 then
    if ks i then some i else scanKeys ks (i + 1)
  else none
termination_by 16 - i
decreasing_by omega

/-- Opcode FX0A: `pauseUntilKeyPressed` scans the keys in ascending
index order; the first pressed key index is stored in `v[x]`,
otherwise the program counter is rewound by 2 (16-bit wraparound). -/
def pauseUntilKeyPressed (x : Nat) (p : Processor) : Processor :=
  match scanKeys p.keyState 0 with
  | some k => { p with v := upd p.v x k }
  | none => { p with pc := (p.pc + 65534) % 65536 }

/-- Opcode FX15: `setDelayToX`. -/
def setDelayToX (x : Nat) (p : Processor) : Processor :=
  { p with delay := p.v x }

/-- Opcode FX18: `setSoundToX`. -/
def setSoundToX (x : Nat) (p : Processor) : Processor :=
  { p with sound := p.v x }

/-- Opcode FX1E: the operation named `setIToX` actually ADDS `v[x]` to
the index register (`cpu.i += uint16(cpu.v[x])`, 16-bit wraparound). -/
def setIToX (x : Nat) (p : Processor) : Processor :=
  { p with i := (p.i + p.v x) % 65536 }

/-- Opcode FX29: `setIToSymbol`
(`cpu.i = FontStartAddress + digit*5` with `digit = cpu.v[x] & 0x0F`). -/
def setIToSymbol (x : Nat) (p : Processor) : Processor :=
  { p with i := FontStartAddress + Nat.land (p.v x) 0xF * 5 }

/-- One iteration of the double-dabble loop of `binaryCodedDecimal`:
add 3 to each BCD nibble that is at least 5, then shift left by one
and inject the next input bit.  The accumulator is a Go `uint32`. -/
def ddStep (bcd bit : Nat) : Nat :=
  let b1 := if 5 ≤ Nat.land bcd 0xF then (bcd + 3) % 4294967296 else bcd
  let b2 := if 0x50 ≤ Nat.land b1 0xF0 then (b1 + 0x30) % 4294967296 else b1
  let b3 := if 0x500 ≤ Nat.land b2 0xF00 then (b2 + 0x300) % 4294967296 else b2
  Nat.lor (Nat.shiftLeft b3 1) bit % 4294967296

/-- The full 8-iteration double-dabble conversion of
`binaryCodedDecimal`: for each input bit from most- to
least-significant (`(val >> (7 - i)) & 1`), dabble then shift. -/
def doubleDabble (val : Nat) : Nat :=
  (List.range 8).foldl (fun bcd i => ddStep bcd (Nat.land (Nat.shiftRight val (7 - i)) 1)) 0

/-- Opcode FX33: `binaryCodedDecimal` converts `v[x]` by double dabble
and writes the hundreds, tens and ones nibbles of the accumulator to
`memory[i]`, `memory[i+1]`, `memory[i+2]`.  The Go indexing
`cpu.memory[cpu.i+2]` is an out-of-range panic when `i + 2 >= 4096`
(the bounds check of each of the three indices reduces to this one
condition, since `i < 4096` makes the `uint16` sums exact). -/
def binaryCodedDecimal (x : Nat) (p : Processor) : Except Err Processor :=
  let bcd := doubleDabble (p.v x)
  let mem1 := upd p.memory p.i (Nat.land (Nat.shiftRight bcd 8) 0xF)
  let mem2 := upd mem1 (p.i + 1) (Nat.land (Nat.shiftRight bcd 4) 0xF)
  let mem3 := upd mem2 (p.i + 2) (Nat.land bcd 0xF)
  if p.i + 2 < 4096 then .ok { p with memory := mem3 }
  else .error .indexOutOfRange

/-- Loop of opcode FX55 (`setRegistersToMemory`): for `k = 0..x`,
`cpu.memory[cpu.i+k] = cpu.v[k]`; the `uint16` address is reduced
`% 65536` and an index at or past 4096 is an out-of-range panic. -/
def setRegsLoop (x : Nat) (p : Processor) (k : Nat) : Except Err Processor :=
  if k ≤ x then
    if (p.i + k) % 65536 < 4096 then
      setRegsLoop x { p with memory := upd p.memory ((p.i + k) % 65536) (p.v k) } (k + 1)
    else .error .indexOutOfRange
  else .ok p
termination_by x + 1 - k
decreasing_by omega

/-- Opcode FX55: `setRegistersToMemory`. -/
def setRegistersToMemory (x : Nat) (p : Processor) : Except Err Processor :=
  setRegsLoop x p 0

/-- Loop of opcode FX65 (`setMemoryToRegisters`): for `k = 0..x`,
`cpu.v[k] = cpu.memory[cpu.i+k]`, with the same bounds behaviour as
`setRegsLoop`. -/
def setMemsLoop (x : Nat) (p : Processor) (k : Nat) : Except Err Processor :=
  if k ≤ x then
    if (p.i + k) % 65536 < 4096 then
      setMemsLoop x { p with v := upd p.v k (p.memory ((p.i + k) % 65536)) } (k + 1)
    else .error .indexOutOfRange
  else .ok p
termination_by x + 1 - k
decreasing_by omega

/-- Opcode FX65: `setMemoryToRegisters`. -/
def setMemoryToRegisters (x : Nat) (p : Processor) : Except Err Processor :=
  setMemsLoop x p 0

/-- The loop of `Processor.Write`:
`for ; loc+i < 0xFFF && int(i) < len(data); i++ { p.memory[loc+i] = data[i] }`
with `loc + i` computed in `uint16` arithmetic; returns the final
memory and the count `i` of bytes written. -/
def writeLoop (mem : Nat → Nat) (loc : Nat) (data : List Nat) (i : Nat) :
    (Nat → Nat) × Nat :=
  match data with
  | [] => (mem, i)
  | b :: rest =>
    if (loc + i) % 65536 < 0xFFF then
      writeLoop (upd mem ((loc + i) % 65536) b) loc rest (i + 1)
    else (mem, i)

/-- `Processor.Write`: bulk write of a byte sequence at `loc`. -/
def Write (p : Processor) (loc : Nat) (data : List Nat) : Processor × Nat :=
  let r := writeLoop p.memory loc data 0
  ({ p with memory := r.1 }, r.2)

/-- The loop of `Processor.Read` for a destination buffer of length
`n`: collects `memory[loc+i]` while `loc+i < 0xFFF` (in `uint16`
arithmetic) and `i < n`; returns the bytes read and the count. -/
def readLoop (mem : Nat → Nat) (loc n i : Nat) : List Nat × Nat :=
  match n with
  | 0 => ([], i)
  | m + 1 =>
    if (loc + i) % 65536 < 0xFFF then
      let r := readLoop mem loc m (i + 1)
      (mem ((loc + i) % 65536) :: r.1, r.2)
    else ([], i)

/-- `Processor.OpcodeAt`: reads the two bytes at `offset` into the
fetch buffer (`panic("program runaway")` when fewer than 2 bytes can
be read) and combines them as `(high << 8) | low`; the bytes are below
256, so the combination equals `high * 256 + low`. -/
def OpcodeAt (p : Processor) (offset : Nat) : Except Err Nat :=
  if (readLoop p.memory offset 2 0).2 < 2 then .error .programRunaway
  else .ok (p.memory (offset % 65536) * 256 + p.memory ((offset + 1) % 65536))

/-- `Processor.Load`: writes the program image at
`ProgramStartAddress` and raises `panic("insufficient memory")` when
fewer bytes than the image length were written; on success the program
counter is set to the program origin. -/
def Load (p : Processor) (b : List Nat) : Except Err Processor :=
  let r := Write p ProgramStartAddress b
  if r.2 < b.length then .error .insufficientMemory
  else .ok { r.1 with pc := ProgramStartAddress }

/-- Decode field `kind`: the top nibble, `(opcode & 0xF000) >> 12`,
written as the equivalent `/ 4096 % 16` (the opcode is a `uint16`). -/
def kindOf (opcode : Nat) : Nat := opcode / 4096 % 16

/-- Decode field `x`: `(opcode & 0x0F00) >> 8`. -/
def xOf (opcode : Nat) : Nat := opcode / 256 % 16

/-- Decode field `y`: `(opcode & 0x00F0) >> 4`. -/
def yOf (opcode : Nat) : Nat := opcode / 16 % 16

/-- Decode field `n`: `opcode & 0x000F`. -/
def nOf (opcode : Nat) : Nat := opcode % 16

/-- Decode field `nn`: `opcode & 0x00FF`. -/
def nnOf (opcode : Nat) : Nat := opcode % 256

/-- Decode field `nnn`: `opcode & 0x0FFF`. -/
def nnnOf (opcode : Nat) : Nat := opcode % 4096

/-- The 0x0 family of `execute`: dispatch on the full word
(00E0 clear screen, 00EE return). -/
def execute0 (opcode : Nat) (p : Processor) : Except Err (Processor × Nat) :=
  if opcode = 0x00E0 then .ok (clearScreen p, 4)
  else if opcode = 0x00EE then (returnFromSubroutine p).map (fun q => (q, 0))
  else .error .unknownOpcode

/-- The 0x8 family of `execute`: dispatch on `n`. -/
def execute8 (opcode : Nat) (p : Processor) : Except Err (Processor × Nat) :=
  if nOf opcode = 0x0 then .ok (setXToY (xOf opcode) (yOf opcode) p, 0)
  else if nOf opcode = 0x1 then .ok (orXY (xOf opcode) (yOf opcode) p, 0)
  else if nOf opcode = 0x2 then .ok (andXY (xOf opcode) (yOf opcode) p, 0)
  else if nOf opcode = 0x3 then .ok (xorXY (xOf opcode) (yOf opcode) p, 0)
  else if nOf opcode = 0x4 then .ok (addXY (xOf opcode) (yOf opcode) p, 0)
  else if nOf opcode = 0x5 then .ok (subtractYFromX (xOf opcode) (yOf opcode) p, 0)
  else if nOf opcode = 0x6 then .ok (shiftRightX (xOf opcode) p, 0)
  else if nOf opcode = 0x7 then .ok (subtractXFromY (xOf opcode) (yOf opcode) p, 0)
  else if nOf opcode = 0xE then .ok (shiftLeftX (xOf opcode) p, 0)
  else .error .unknownOpcode

/-- The 0xE family of `execute`: dispatch on `nn`. -/
def executeE (opcode : Nat) (p : Processor) : Except Err (Processor × Nat) :=
  if nnOf opcode = 0x9E then .ok (stepIfKeyDown (xOf opcode) p, 0)
  else if nnOf opcode = 0xA1 then .ok (stepIfKeyUp (xOf opcode) p, 0)
  else .error .unknownOpcode

/-- The 0xF family of `execute`: dispatch on `nn`. -/
def executeF (opcode : Nat) (p : Processor) : Except Err (Processor × Nat) :=
  if nnOf opcode = 0x07 then .ok (setXToDelay (xOf opcode) p, 0)
  else if nnOf opcode = 0x0A then .ok (pauseUntilKeyPressed (xOf opcode) p, 0)
  else if nnOf opcode = 0x15 then .ok (setDelayToX (xOf opcode) p, 0)
  else if nnOf opcode = 0x18 then .ok (setSoundToX (xOf opcode) p, 0)
  else if nnOf opcode = 0x1E then .ok (setIToX (xOf opcode) p, 0)
  else if nnOf opcode = 0x29 then .ok (setIToSymbol (xOf opcode) p, 0)
  else if nnOf opcode = 0x33 then (binaryCodedDecimal (xOf opcode) p).map (fun q => (q, 0))
  else if nnOf opcode = 0x55 then (setRegistersToMemory (xOf opcode) p).map (fun q => (q, 0))
  else if nnOf opcode = 0x65 then (setMemoryToRegisters (xOf opcode) p).map (fun q => (q, 0))
  else .error .unknownOpcode

/-- The dispatch of `execute` (equivalently `Processor.Execute`): the
top nibble selects the family, with second-level dispatch on `n`, `nn`
or the full word for the 0x0/0x8/0xE/0xF families.  The returned `Nat`
is the `info` flag byte (`Redraw = 4` is the only flag set by an
instruction).  `rnd` feeds CXNN. -/
def execute (rnd opcode : Nat) (p : Processor) : Except Err (Processor × Nat) :=
  if kindOf opcode = 0x0 then execute0 opcode p
  else if kindOf opcode = 0x1 then .ok (jumpToLocation (nnnOf opcode) p, 0)
  else if kindOf opcode = 0x2 then (callSubroutine (nnnOf opcode) p).map (fun q => (q, 0))
  else if kindOf opcode = 0x3 then .ok (stepIfXEqualsNN (xOf opcode) (nnOf opcode) p, 0)
  else if kindOf opcode = 0x4 then .ok (stepIfXNotEqualsNN (xOf opcode) (nnOf opcode) p, 0)
  else if kindOf opcode = 0x5 then .ok (stepIfXEqualsY (xOf opcode) (yOf opcode) p, 0)
  else if kindOf opcode = 0x6 then .ok (setXToNN (xOf opcode) (nnOf opcode) p, 0)
  else if kindOf opcode = 0x7 then .ok (addNNToX (xOf opcode) (nnOf opcode) p, 0)
  else if kindOf opcode = 0x8 then execute8 opcode p
  else if kindOf opcode = 0x9 then .ok (stepIfXNotEqualsY (xOf opcode) (yOf opcode) p, 0)
  else if kindOf opcode = 0xA then .ok (setIToNNN (nnnOf opcode) p, 0)
  else if kindOf opcode = 0xB then .ok (jumpWithOffset (nnnOf opcode) p, 0)
  else if kindOf opcode = 0xC then .ok (setXToRandom rnd (xOf opcode) (nnOf opcode) p, 0)
  else if kindOf opcode = 0xD then
    (drawSprite (p.v (xOf opcode)) (p.v (yOf opcode)) (nOf opcode) p).map (fun q => (q, 4))
  else if kindOf opcode = 0xE then executeE opcode p
  else if kindOf opcode = 0xF then executeF opcode p
  else .error .unknownOpcode

/-- Go constant `TimerRate = time.Second / 60` in nanoseconds
(integer division of 1e9 by 60). -/
def TimerRate : Nat := 16666666

/-- The timer block of `Processor.Step`: when at least `TimerRate`
nanoseconds elapsed since `lastTimerUpdate` (`time.Since`), both
timers are decremented with a floor at 0 and the reference time is
reset to `now`. -/
def timerTick (p : Processor) (now : Nat) : Processor :=
  if TimerRate ≤ now - p.lastTimerUpdate then
    { p with sound := if 0 < p.sound then p.sound - 1 else p.sound,
             delay := if 0 < p.delay then p.delay - 1 else p.delay,
             lastTimerUpdate := now }
  else p

/-- `Processor.Step`: fetch the opcode at `pc`, increment `pc` by 2,
execute, run the timer block, then accumulate the `Sound = 2` and
`Delay = 1` flags into `info`.  `now` is the current time in
nanoseconds (`time.Now`), `rnd` the random byte for CXNN. -/
def Step (rnd now : Nat) (p : Processor) : Except Err (Processor × Nat) :=
  match OpcodeAt p p.pc with
  | .error e => .error e
  | .ok opcode =>
    match execute rnd opcode { p with pc := (p.pc + 2) % 65536 } with
    | .error e => .error e
    | .ok (q, info) =>
      let r := timerTick q now
      let info1 := if 0 < r.sound then Nat.lor info 2 else info
      let info2 := if 0 < r.delay then Nat.lor info1 1 else info1
      .ok (r, info2)

/-- Iterated subroutine calls to the same address: `callN nnn k p` is
the result of `k` consecutive 2NNN executions. -/
def callN (nnn : Nat) : Nat → Processor → Except Err Processor
  | 0, p => .ok p
  | k + 1, p =>
    match callSubroutine nnn p with
    | .error e => .error e
    | .ok q => callN nnn k q

/-- State with `v[0] = 5`, exercising OR with the flag register as
target. -/
def c1s : Processor := { zeroProc with v := upd zeroProc.v 0 5 }

/-- State with `v[0] = 255`, `v[1] = 1`. -/
def c1w : Processor := { zeroProc with v := upd (upd zeroProc.v 0 255) 1 1 }

/-- State with `v[0xF] = 200`, `v[0] = 100`, exercising ADD with the
flag register as target. -/
def c2s : Processor := { zeroProc with v := upd (upd zeroProc.v 15 200) 0 100 }

/-- State with `v[0] = 5`, `v[1] = 3`. -/
def c2w : Processor := { zeroProc with v := upd (upd zeroProc.v 0 5) 1 3 }

/-- State with the index register at 0xFFE = 4094, two below the top
of memory. -/
def c3s : Processor := { zeroProc with i := 4094 }

/-- State with `v[0] = 156` and the index register at 1000. -/
def c3w : Processor := { zeroProc with v := upd zeroProc.v 0 156, i := 1000 }

/-- State with the index register at 0xFFF = 4095. -/
def c6s : Processor := { zeroProc with i := 4095 }

/-- State with opcode F00A (wait for key into `v[0]`) at the program
origin and the program counter there. -/
def c5w : Processor :=
  { zeroProc with memory := upd (upd zeroProc.memory 512 240) 513 10, pc := 512 }

/-- State with opcode 6005 (`v[0] = 5`) at the program origin and the
program counter there. -/
def c8w : Processor :=
  { zeroProc with memory := upd (upd zeroProc.memory 512 96) 513 5, pc := 512 }

/-- The state `c8w` steps to: `pc` advanced past the opcode and
`v[0] = 5`. -/
def c8w' : Processor := { c8w with pc := 514, v := upd c8w.v 0 5 }

/-- State with opcode F01E (`i += v[0]`) at the program origin, the
program counter there, `i = 7` and `v[0] = 9`. -/
def c10w : Processor :=
  { zeroProc with
      memory := upd (upd zeroProc.memory 512 240) 513 30,
      pc := 512,
      i := 7,
      v := upd zeroProc.v 0 9 }

/-- The state `c10w` steps to: `pc` advanced and `i = 16`. -/
def c10w' : Processor := { c10w with pc := 514, i := 16 }

/-! ## Helper lemmas -/

theorem upd_self (f : Nat → Nat) (k val : Nat) : upd f k val k = val := by
  simp [upd]

theorem upd_of_ne (f : Nat → Nat) {a k : Nat} (val : Nat) (h : a ≠ k) :
    upd f k val a = f a := by
  simp [upd, h]

/-! ## C1: flag semantics of the 8XY1/2/3/4/5/7 instructions -/

/-- Claim C1 as stated is false: it quantifies over every pair of
register indices, but with `x = 0xF` the combined result overwrites
the reset flag.  Concretely, with `v[0] = 5`, executing OR with
`x = 0xF`, `y = 0` leaves `v[0xF] = 5`, not 0. -/
theorem claim1_counterexample :
    (orXY 15 0 c1s).v 15 = 5 ∧ ¬ ((orXY 15 0 c1s).v 15 = 0) := by
  decide

/-- Claim C1 amended: for register indices other than the flag
register 0xF, OR/AND/XOR reset `v[0xF]` to 0 and store the combined
result in `v[x]`; ADD stores `(v[x] + v[y]) mod 256` and sets the flag
to 1 iff the sum exceeds 255; the subtraction variants set the flag to
1 iff the minuend is at least the subtrahend. -/
theorem claim1_amended (p : Processor) (x y : Nat) (hx : x < 16) (hy : y < 16)
    (hx15 : x ≠ 15) (hy15 : y ≠ 15) :
    ((orXY x y p).v 15 = 0 ∧ (orXY x y p).v x = Nat.lor (p.v x) (p.v y)) ∧
    ((andXY x y p).v 15 = 0 ∧ (andXY x y p).v x = Nat.land (p.v x) (p.v y)) ∧
    ((xorXY x y p).v 15 = 0 ∧ (xorXY x y p).v x = Nat.xor (p.v x) (p.v y)) ∧
    ((addXY x y p).v x = (p.v x + p.v y) % 256 ∧
      ((addXY x y p).v 15 = 1 ↔ 255 < p.v x + p.v y)) ∧
    ((subtractYFromX x y p).v 15 = 1 ↔ p.v y ≤ p.v x) ∧
    ((subtractXFromY x y p).v 15 = 1 ↔ p.v x ≤ p.v y) := by
  have h15x : (15 : Nat) ≠ x := fun h => hx15 h.symm
  have h15y : (15 : Nat) ≠ y := fun h => hy15 h.symm
  refine ⟨⟨?_, ?_⟩, ⟨?_, ?_⟩, ⟨?_, ?_⟩, ⟨?_, ?_⟩, ?_, ?_⟩
  · simp [orXY, CarryFlag, upd, h15x]
  · simp [orXY, CarryFlag, upd, hx15, hy15]
  · simp [andXY, CarryFlag, upd, h15x]
  · simp [andXY, CarryFlag, upd, hx15, hy15]
  · simp [xorXY, CarryFlag, upd, h15x]
  · simp [xorXY, CarryFlag, upd, hx15, hy15]
  · by_cases hc : 255 < p.v x + p.v y <;>
      simp [addXY, CarryFlag, upd, hc, hx15]
  · by_cases hc : 255 < p.v x + p.v y <;>
      simp [addXY, CarryFlag, upd, hc, h15x, hx15]
  · by_cases hc : p.v y ≤ p.v x <;>
      simp [subtractYFromX, CarryFlag, upd, hc, h15x, hx15, hy15]
  · by_cases hc : p.v x ≤ p.v y <;>
      simp [subtractXFromY, CarryFlag, upd, hc, h15x, hx15, hy15]

/-- Witness for C1 amended: the OR conjunct at `x = 0`, `y = 1` on a
concrete state. -/
theorem claim1_witness :
    (orXY 0 1 c1w).v 15 = 0 ∧ (orXY 0 1 c1w).v 0 = Nat.lor (c1w.v 0) (c1w.v 1) :=
  (claim1_amended c1w 0 1 (by decide) (by decide) (by decide) (by decide)).1

/-! ## C2: the flag register always receives the flag bit -/

/-- Claim C2 as stated is false: with `x = 0xF` the regular result
overwrites the flag.  With `v[0xF] = 200`, `v[0] = 100`, executing
ADD with `x = 0xF`, `y = 0` has an overflowing sum (300 > 255), yet
`v[0xF]` ends at 44 = 300 mod 256, the regular result, not the carry
bit 1. -/
theorem claim2_counterexample :
    (addXY 15 0 c2s).v 15 = 44 ∧ 255 < c2s.v 15 + c2s.v 0 ∧
      ¬ ((addXY 15 0 c2s).v 15 = 1) := by
  decide

set_option maxRecDepth 10000 in
/-- Claim C2 amended: for a primary target register `x ≠ 0xF` (and,
for the two-operand subtractions, source `y ≠ 0xF`), after execution
`v[0xF]` holds exactly the carry/borrow/shift-out bit, and the
draw-sprite routine present in the source always leaves the collision
flag 0. -/
theorem claim2_amended (p : Processor) (x y : Nat) (hx : x < 16) (hy : y < 16)
    (hx15 : x ≠ 15) (hvx : p.v x < 256) :
    ((addXY x y p).v 15 = if 255 < p.v x + p.v y then 1 else 0) ∧
    ((shiftRightX x p).v 15 = p.v x % 2) ∧
    ((shiftLeftX x p).v 15 = p.v x / 128) ∧
    (y ≠ 15 →
      ((subtractYFromX x y p).v 15 = if p.v y ≤ p.v x then 1 else 0) ∧
      ((subtractXFromY x y p).v 15 = if p.v x ≤ p.v y then 1 else 0)) ∧
    (∀ n q, drawSprite (p.v x) (p.v y) n p = Except.ok q → q.v 15 = 0) := by
  have h15x : (15 : Nat) ≠ x := fun h => hx15 h.symm
  refine ⟨?_, ?_, ?_, fun hy15 => ⟨?_, ?_⟩, ?_⟩
  · by_cases hc : 255 < p.v x + p.v y <;>
      simp [addXY, CarryFlag, upd, hc, h15x, hx15]
  · have hl : Nat.land (p.v x) 1 = p.v x % 2 :=
      (by decide : ∀ v : Nat, v < 256 → Nat.land v 1 = v % 2) _ hvx
    simp [shiftRightX, CarryFlag, upd, h15x, hx15, hl]
  · have hl : Nat.land (p.v x) 128 >>> 7 = p.v x / 128 :=
      (by decide : ∀ v : Nat, v < 256 → Nat.land v 128 >>> 7 = v / 128) _ hvx
    simp [shiftLeftX, CarryFlag, upd, h15x, hx15, hl]
  · by_cases hc : p.v y ≤ p.v x <;>
      simp [subtractYFromX, CarryFlag, upd, hc, h15x, hx15,
        fun h => hy15 (Eq.symm h), hy15]
  · by_cases hc : p.v x ≤ p.v y <;>
      simp [subtractXFromY, CarryFlag, upd, hc, h15x, hx15,
        fun h => hy15 (Eq.symm h), hy15]
  · intro n q h
    simp only [drawSprite] at h
    split at h
    · exact absurd h (by simp)
    · simp only [Except.ok.injEq] at h
      subst h
      simp [upd, CarryFlag]

/-- Witness for C2 amended: the ADD conjunct at `x = 0`, `y = 1` on a
concrete state. -/
theorem claim2_witness :
    (addXY 0 1 c2w).v 15 = if 255 < c2w.v 0 + c2w.v 1 then 1 else 0 :=
  (claim2_amended c2w 0 1 (by decide) (by decide) (by decide) (by decide)).1

/-! ## C7: sprite origin wrapping -/

/-- Claim C7 is right about the intended behaviour and the code is
wrong: in `Emulator.drawSprite` the sprite-height parameter named
`height` shadows the 32-row screen-height constant, so the start row
is computed as `Vy mod N` instead of `Vy mod 32`.  At `Vy = 33` with
sprite height `N = 5` the code yields row 3 where the specified
wrap-modulo-32 yields row 1 (and a height operand of 0 would be a
division-by-zero panic instead of a wrap). -/
theorem claim7_startRow :
    spriteStartY 33 5 = 3 ∧ 33 % 32 = 1 ∧ spriteStartY 33 5 ≠ 33 % 32 ∧
      drawSprite 10 33 0 zeroProc = Except.error Err.divideByZero := by
  refine ⟨by decide, by decide, by decide, rfl⟩

/-! ## C3: the BCD instruction -/

/-- Claim C3 as stated is false: it quantifies over every index
register value, but with `i = 0xFFE = 4094` the write of the ones
digit indexes `memory[4096]`, an out-of-range panic, and no three
bytes are written. -/
theorem claim3_counterexample :
    binaryCodedDecimal 0 c3s = Except.error Err.indexOutOfRange := rfl

set_option maxRecDepth 10000 in
/-- Claim C3 amended: whenever the three target addresses fit in
memory (`i + 2 < 4096`), the BCD instruction writes exactly the
hundreds, tens and ones digits of `v[x]` at `i`, `i+1`, `i+2` and
changes no other memory cell; the double-dabble loop produces exactly
the decimal digits for every 8-bit value. -/
theorem claim3_amended (p : Processor) (x : Nat) (hv : p.v x < 256)
    (hi : p.i + 2 < 4096) :
    ∃ q, binaryCodedDecimal x p = Except.ok q ∧
      q.memory p.i = p.v x / 100 ∧
      q.memory (p.i + 1) = p.v x / 10 % 10 ∧
      q.memory (p.i + 2) = p.v x % 10 ∧
      (∀ a, a ≠ p.i → a ≠ p.i + 1 → a ≠ p.i + 2 → q.memory a = p.memory a) := by
  have key := (by decide : ∀ v : Nat, v < 256 →
      Nat.land (Nat.shiftRight (doubleDabble v) 8) 15 = v / 100 ∧
      Nat.land (Nat.shiftRight (doubleDabble v) 4) 15 = v / 10 % 10 ∧
      Nat.land (doubleDabble v) 15 = v % 10) _ hv
  have ne1 : p.i ≠ p.i + 1 := by omega
  have ne2 : p.i ≠ p.i + 2 := by omega
  have ne3 : p.i + 1 ≠ p.i + 2 := by omega
  refine ⟨{ p with memory := upd (upd (upd p.memory p.i (Nat.land (Nat.shiftRight (doubleDabble (p.v x)) 8) 15)) (p.i + 1) (Nat.land (Nat.shiftRight (doubleDabble (p.v x)) 4) 15)) (p.i + 2) (Nat.land (doubleDabble (p.v x)) 15) }, ?_, ?_, ?_, ?_, ?_⟩
  · simp [binaryCodedDecimal, hi]
  · simp only [upd, if_neg ne2, if_neg ne1, if_pos rfl]
    exact key.1
  · simp only [upd, if_neg ne3, if_pos rfl]
    exact key.2.1
  · simp only [upd, if_pos rfl]
    exact key.2.2
  · intro a ha1 ha2 ha3
    simp only [upd, if_neg ha3, if_neg ha2, if_neg ha1]

/-- Witness for C3 amended: `v[0] = 156` at `i = 1000` produces the
bytes 1, 5, 6 at addresses 1000, 1001, 1002. -/
theorem claim3_witness :
    ∃ q, binaryCodedDecimal 0 c3w = Except.ok q ∧
      q.memory c3w.i = c3w.v 0 / 100 ∧
      q.memory (c3w.i + 1) = c3w.v 0 / 10 % 10 ∧
      q.memory (c3w.i + 2) = c3w.v 0 % 10 ∧
      (∀ a, a ≠ c3w.i → a ≠ c3w.i + 1 → a ≠ c3w.i + 2 →
        q.memory a = c3w.memory a) :=
  claim3_amended c3w 0 (by decide) (by decide)

/-! ## C4: call-stack capacity -/

/-- As long as the 16-slot stack has room, consecutive subroutine
calls succeed and increase the depth by one each. -/
theorem callN_ok (nnn : Nat) : ∀ (k : Nat) (p : Processor), p.sp + k ≤ 16 →
    ∃ q, callN nnn k p = Except.ok q ∧ q.sp = p.sp + k := by
  intro k
  induction k with
  | zero => exact fun p _ => ⟨p, rfl, rfl⟩
  | succ k ih =>
    intro p h
    have hsp : ¬ 16 ≤ p.sp := by omega
    obtain ⟨q, hq, hsp'⟩ :=
      ih { p with stack := upd p.stack p.sp p.pc, sp := p.sp + 1, pc := nnn }
        (show p.sp + 1 + k ≤ 16 by omega)
    refine ⟨q, ?_, ?_⟩
    · simp only [callN, callSubroutine, if_neg hsp]
      exact hq
    · rw [hsp']
      show p.sp + 1 + k = p.sp + (k + 1)
      omega

/-- A run of calls that would push the depth past 16 hits the
overflow panic. -/
theorem callN_overflow (nnn : Nat) : ∀ (k : Nat) (p : Processor),
    p.sp + k = 17 → p.sp ≤ 16 →
    callN nnn k p = Except.error Err.stackOverflow := by
  intro k
  induction k with
  | zero => intro p h17 hle; omega
  | succ k ih =>
    intro p h17 hle
    by_cases hsp : 16 ≤ p.sp
    · simp [callN, callSubroutine, hsp]
    · have hq := ih { p with stack := upd p.stack p.sp p.pc, sp := p.sp + 1, pc := nnn }
        (show p.sp + 1 + k = 17 by omega) (show p.sp + 1 ≤ 16 by omega)
      simp only [callN, callSubroutine, if_neg hsp]
      exact hq

/-- Claim C4: the call stack has capacity 16; from an empty stack 16
consecutive 2NNN calls succeed reaching depth 16, a 17th call raises
the stack-overflow condition, a 00EE return from the empty stack
raises the stack-underflow condition, and a successful call never
pushes the depth past 16. -/
theorem claim4_stack (p : Processor) (nnn : Nat) (h0 : p.sp = 0) :
    (∃ q, callN nnn 16 p = Except.ok q ∧ q.sp = 16) ∧
    callN nnn 17 p = Except.error Err.stackOverflow ∧
    returnFromSubroutine p = Except.error Err.stackUnderflow ∧
    (∀ r : Processor, r.sp ≤ 16 → ∀ q, callSubroutine nnn r = Except.ok q →
      q.sp ≤ 16) := by
  refine ⟨?_, ?_, ?_, ?_⟩
  · have h := callN_ok nnn 16 p (by omega)
    simpa [h0] using h
  · exact callN_overflow nnn 17 p (by omega) (by omega)
  · simp [returnFromSubroutine, h0]
  · intro r hr q hq
    unfold callSubroutine at hq
    split at hq
    · exact absurd hq (by simp)
    · rename_i hlt
      simp only [Except.ok.injEq] at hq
      subst hq
      show r.sp + 1 ≤ 16
      omega

/-- Witness for C4: the empty-stack state, with the underflowing
return evaluated there. -/
theorem claim4_witness :
    zeroProc.sp = 0 ∧
      returnFromSubroutine zeroProc = Except.error Err.stackUnderflow :=
  ⟨rfl, (claim4_stack zeroProc 0 rfl).2.2.1⟩

/-! ## Bulk memory operations: bounds, counts and written bytes -/

/-- The write loop never touches an address at or above 0xFFF. -/
theorem writeLoop_high : ∀ (data : List Nat) (mem : Nat → Nat) (loc i a : Nat),
    4095 ≤ a → (writeLoop mem loc data i).1 a = mem a := by
  intro data
  induction data with
  | nil => intro mem loc i a ha; rfl
  | cons b rest ih =>
    intro mem loc i a ha
    unfold writeLoop
    split
    · rename_i hlt
      rw [ih (upd mem ((loc + i) % 65536) b) loc (i + 1) a ha]
      exact upd_of_ne mem b (by omega)
    · rfl

/-- The number of bytes the write loop reports: writing stops at
address 0xFFE, so starting at `loc` at most `4095 - loc` bytes are
written. -/
theorem writeLoop_count : ∀ (data : List Nat) (mem : Nat → Nat) (loc i : Nat),
    loc + i ≤ 4095 →
    (writeLoop mem loc data i).2 = i + min data.length (4095 - (loc + i)) := by
  intro data
  induction data with
  | nil => intro mem loc i h; simp [writeLoop]
  | cons b rest ih =>
    intro mem loc i h
    unfold writeLoop
    have hm : (loc + i) % 65536 = loc + i := by omega
    rw [hm]
    by_cases hlt : loc + i < 4095
    · rw [if_pos hlt, ih (upd mem (loc + i) b) loc (i + 1) (by omega)]
      simp only [List.length_cons]
      omega
    · rw [if_neg hlt]
      simp only [List.length_cons]
      omega

/-- The number of bytes the read loop reports, mirroring
`writeLoop_count`. -/
theorem readLoop_count : ∀ (n : Nat) (mem : Nat → Nat) (loc i : Nat),
    loc + i ≤ 4095 →
    (readLoop mem loc n i).2 = i + min n (4095 - (loc + i)) := by
  intro n
  induction n with
  | zero => intro mem loc i h; simp [readLoop]
  | succ m ih =>
    intro mem loc i h
    unfold readLoop
    have hm : (loc + i) % 65536 = loc + i := by omega
    rw [hm]
    by_cases hlt : loc + i < 4095
    · rw [if_pos hlt]
      simp only
      rw [ih mem loc (i + 1) (by omega)]
      omega
    · rw [if_neg hlt]
      omega

/-- The write loop leaves every address outside the written window
unchanged (no wraparound happens below 0xFFF). -/
theorem writeLoop_frame : ∀ (data : List Nat) (mem : Nat → Nat) (loc i : Nat),
    loc + i + data.length ≤ 4095 →
    ∀ a, a < loc + i ∨ loc + i + data.length ≤ a →
    (writeLoop mem loc data i).1 a = mem a := by
  intro data
  induction data with
  | nil => intro mem loc i _ a _; rfl
  | cons b rest ih =>
    intro mem loc i h a hout
    unfold writeLoop
    have hm : (loc + i) % 65536 = loc + i := by omega
    rw [hm, if_pos (by simp at h; omega)]
    rw [ih (upd mem (loc + i) b) loc (i + 1) (by simp at h ⊢; omega) a
      (by simp at h hout ⊢; omega)]
    exact upd_of_ne mem b (by simp at hout; omega)

/-- The write loop stores the bytes of `data` verbatim at consecutive
addresses when the whole window fits below 0xFFF. -/
theorem writeLoop_get : ∀ (data : List Nat) (mem : Nat → Nat) (loc i : Nat),
    loc + i + data.length ≤ 4095 →
    ∀ k, k < data.length →
    (writeLoop mem loc data i).1 (loc + i + k) = data.getD k 0 := by
  intro data
  induction data with
  | nil => intro mem loc i _ k hk; simp at hk
  | cons b rest ih =>
    intro mem loc i h k hk
    unfold writeLoop
    have hm : (loc + i) % 65536 = loc + i := by omega
    rw [hm, if_pos (by simp at h; omega)]
    match k with
    | 0 =>
      rw [writeLoop_frame rest (upd mem (loc + i) b) loc (i + 1)
        (by simp at h ⊢; omega) (loc + i + 0) (by omega)]
      simpa using upd_self mem (loc + i) b
    | k + 1 =>
      have ha : loc + i + (k + 1) = loc + (i + 1) + k := by omega
      rw [ha, ih (upd mem (loc + i) b) loc (i + 1) (by simp at h ⊢; omega) k
        (by simp at hk; omega)]
      simp

/-! ## C6: memory access bounds -/

/-- Claim C6 as stated is false: address 0xFFF = 4095 is within
[0, 0xFFF] but is not accessible, because the `Write` loop stops as
soon as `loc+i < 0xFFF` fails.  Writing one byte at 0xFFF writes
nothing and reports 0 bytes written. -/
theorem claim6_counterexample :
    (writeLoop (fun _ => 0) 4095 [7] 0).2 = 0 ∧
      (writeLoop (fun _ => 0) 4095 [7] 0).1 4095 = 0 := by
  decide

/-- Claim C6 amended: the bulk `Write` and `Read` operations access
only addresses in [0, 0xFFE] — they never write at or above 0xFFF,
they silently truncate a transfer at address 0xFFF reporting the
bytes actually transferred, and every address in [0, 0xFFE] is
accessible — while the instruction-level accesses of FX55/FX65 (and
FX33) are not bounded: with the index register at the top of memory
they fault out of range instead of truncating. -/
theorem claim6_amended :
    (∀ (data : List Nat) (mem : Nat → Nat) (loc i a : Nat), 4095 ≤ a →
      (writeLoop mem loc data i).1 a = mem a) ∧
    (∀ (data : List Nat) (mem : Nat → Nat) (loc : Nat), loc ≤ 4095 →
      (writeLoop mem loc data 0).2 = min data.length (4095 - loc)) ∧
    (∀ (n : Nat) (mem : Nat → Nat) (loc : Nat), loc ≤ 4095 →
      (readLoop mem loc n 0).2 = min n (4095 - loc)) ∧
    (∀ (mem : Nat → Nat) (a b : Nat), a < 4095 →
      (writeLoop mem a [b] 0).1 a = b ∧ readLoop mem a 1 0 = ([mem a], 1)) ∧
    (∀ p : Processor, p.i = 4095 →
      setRegistersToMemory 1 p = Except.error Err.indexOutOfRange) := by
  refine ⟨writeLoop_high, ?_, ?_, ?_, ?_⟩
  · intro data mem loc h
    simpa using writeLoop_count data mem loc 0 (by omega)
  · intro n mem loc h
    simpa using readLoop_count n mem loc 0 (by omega)
  · intro mem a b ha
    have hm : (a + 0) % 65536 = a := by omega
    have hm2 : a % 65536 = a := by omega
    refine ⟨?_, ?_⟩
    · simp only [writeLoop, hm, if_pos ha]
      exact upd_self mem a b
    · simp [readLoop, hm, hm2, ha]
  · intro p hi
    simp [setRegistersToMemory, setRegsLoop, hi]

/-- Witness for C6 amended: each conjunct applied at concrete
inputs. -/
theorem claim6_witness :
    (writeLoop (fun _ => 0) 4000 [5] 0).1 4095 = 0 ∧
    (writeLoop (fun _ => 0) 4090 [1, 2, 3, 4, 5, 6, 7, 8] 0).2 = min 8 5 ∧
    (readLoop (fun _ => 0) 4090 8 0).2 = min 8 5 ∧
    ((writeLoop (fun _ => 0) 100 [9] 0).1 100 = 9 ∧
      readLoop (fun _ => 0) 100 1 0 = ([0], 1)) ∧
    setRegistersToMemory 1 c6s = Except.error Err.indexOutOfRange := by
  obtain ⟨h1, h2, h3, h4, h5⟩ := claim6_amended
  exact ⟨h1 [5] (fun _ => 0) 4000 0 4095 (by decide),
    h2 [1, 2, 3, 4, 5, 6, 7, 8] (fun _ => 0) 4090 (by decide),
    h3 8 (fun _ => 0) 4090 (by decide),
    h4 (fun _ => 0) 100 9 (by decide),
    h5 c6s rfl⟩

/-! ## C9: program load -/

/-- Claim C9: `Load` writes the byte sequence verbatim at the program
origin 0x200 and sets the program counter there; when the sequence
would run past the top of addressable memory, `Write` reports the
number of bytes actually written (3583, the room below 0xFFF) and
`Load` raises the fatal insufficient-memory condition instead of
running truncated. -/
theorem claim9_load (p : Processor) (b : List Nat) :
    (b.length ≤ 3583 →
      ∃ q, Load p b = Except.ok q ∧ q.pc = 512 ∧
        (∀ k, k < b.length → q.memory (512 + k) = b.getD k 0) ∧
        (Write p 512 b).2 = b.length) ∧
    (3583 < b.length →
      Load p b = Except.error Err.insufficientMemory ∧
      (Write p 512 b).2 = 3583) := by
  constructor
  · intro hlen
    have hcnt : (writeLoop p.memory 512 b 0).2 = b.length := by
      rw [writeLoop_count b p.memory 512 0 (by omega)]
      omega
    refine ⟨{ p with memory := (writeLoop p.memory 512 b 0).1, pc := 512 },
      ?_, rfl, ?_, ?_⟩
    · simp [Load, Write, ProgramStartAddress, hcnt]
    · intro k hk
      have h := writeLoop_get b p.memory 512 0 (by omega) k hk
      simpa using h
    · exact hcnt
  · intro hlen
    have hcnt : (writeLoop p.memory 512 b 0).2 = 3583 := by
      rw [writeLoop_count b p.memory 512 0 (by omega)]
      omega
    refine ⟨?_, hcnt⟩
    simp [Load, Write, ProgramStartAddress, hcnt]
    omega

/-- Witness for C9: a 2-byte program loads verbatim; a 3600-byte
program does not fit and the load fails after 3583 bytes. -/
theorem claim9_witness :
    (∃ q, Load zeroProc [1, 2] = Except.ok q ∧ q.pc = 512 ∧
      (∀ k, k < [1, 2].length → q.memory (512 + k) = [1, 2].getD k 0) ∧
      (Write zeroProc 512 [1, 2]).2 = [1, 2].length) ∧
    (Load zeroProc (List.replicate 3600 9) = Except.error Err.insufficientMemory ∧
      (Write zeroProc 512 (List.replicate 3600 9)).2 = 3583) :=
  ⟨(claim9_load zeroProc [1, 2]).1 (by decide),
   (claim9_load zeroProc (List.replicate 3600 9)).2
     (by rw [List.length_replicate]; omega)⟩

/-! ## The fetch-execute step: helper lemmas -/

theorem timerTick_pc (q : Processor) (now : Nat) : (timerTick q now).pc = q.pc := by
  unfold timerTick
  split <;> rfl

theorem timerTick_v (q : Processor) (now : Nat) : (timerTick q now).v = q.v := by
  unfold timerTick
  split <;> rfl

theorem timerTick_i (q : Processor) (now : Nat) : (timerTick q now).i = q.i := by
  unfold timerTick
  split <;> rfl

theorem timerTick_memory (q : Processor) (now : Nat) :
    (timerTick q now).memory = q.memory := by
  unfold timerTick
  split <;> rfl

/-- A key scan returning `none` means no key at or past the scan start
is pressed. -/
theorem scanKeys_eq_none (ks : Nat → Bool) : ∀ (d i : Nat), 16 - i = d →
    scanKeys ks i = none → ∀ k, i ≤ k → k < 16 → ks k = false := by
  intro d
  induction d with
  | zero => intro i hd _ k hik hk; omega
  | succ d ih =>
    intro i hd hnone k hik hk
    have hi : i < 16 := by omega
    unfold scanKeys at hnone
    rw [dif_pos hi] at hnone
    by_cases hks : ks i
    · rw [if_pos hks] at hnone
      exact absurd hnone (by simp)
    · rw [if_neg hks] at hnone
      rcases Nat.eq_or_lt_of_le hik with h | h
      · subst h
        exact Bool.not_eq_true _ ▸ (by simpa using hks)
      · exact ih (i + 1) (by omega) hnone k (by omega) hk

/-- A key scan returning `some k` means `k` is pressed, in range, and
the least pressed index at or past the scan start. -/
theorem scanKeys_eq_some (ks : Nat → Bool) : ∀ (d i k : Nat), 16 - i = d →
    scanKeys ks i = some k →
    ks k = true ∧ k < 16 ∧ i ≤ k ∧ ∀ j, i ≤ j → j < k → ks j = false := by
  intro d
  induction d with
  | zero =>
    intro i k hd hsome
    unfold scanKeys at hsome
    rw [dif_neg (by omega)] at hsome
    exact absurd hsome (by simp)
  | succ d ih =>
    intro i k hd hsome
    have hi : i < 16 := by omega
    unfold scanKeys at hsome
    rw [dif_pos hi] at hsome
    by_cases hks : ks i
    · rw [if_pos hks] at hsome
      simp only [Option.some.injEq] at hsome
      subst hsome
      exact ⟨hks, hi, le_refl i, fun j hij hji => by omega⟩
    · rw [if_neg hks] at hsome
      obtain ⟨h1, h2, h3, h4⟩ := ih (i + 1) k (by omega) hsome
      refine ⟨h1, h2, by omega, fun j hij hjk => ?_⟩
      rcases Nat.eq_or_lt_of_le hij with h | h
      · subst h
        simpa using hks
      · exact h4 j (by omega) hjk

/-! ## C5: the wait-for-key instruction over a full step -/

/-- Claim C5: with opcode FX0A at the program counter, a full
fetch-execute step leaves the program counter unchanged (the
handler's rewind by 2 cancels the post-fetch increment) and all
registers untouched when no key is pressed; when some key is pressed,
the lowest pressed index (ascending scan) lands in `v[x]` and the
program counter advances by the normal 2. -/
theorem claim5_waitKey (p : Processor) (x rnd now : Nat) (hx : x < 16)
    (hpc : p.pc ≤ 4093) (hhi : p.memory p.pc = 240 + x)
    (hlo : p.memory (p.pc + 1) = 10) :
    (∃ r, Step rnd now p = Except.ok r) ∧
    (∀ p' info, Step rnd now p = Except.ok (p', info) →
      ((∀ k, k < 16 → p.keyState k = false) → p'.pc = p.pc ∧ p'.v = p.v) ∧
      (∀ k, k < 16 → p.keyState k = true →
        (∀ j, j < k → p.keyState j = false) →
        p'.pc = p.pc + 2 ∧ p'.v x = k)) := by
  have hq0 : p.pc < 4095 := by omega
  have hq1 : p.pc + 1 < 4095 := by omega
  have hm0 : p.pc % 65536 = p.pc := by omega
  have hm1 : (p.pc + 1) % 65536 = p.pc + 1 := by omega
  have hop : OpcodeAt p p.pc = Except.ok ((240 + x) * 256 + 10) := by
    simp [OpcodeAt, readLoop, hq0, hq1, hm0, hm1, hhi, hlo]
  have hk : kindOf ((240 + x) * 256 + 10) = 15 := by unfold kindOf; omega
  have hxo : xOf ((240 + x) * 256 + 10) = x := by unfold xOf; omega
  have hnn : nnOf ((240 + x) * 256 + 10) = 10 := by unfold nnOf; omega
  have hex : execute rnd ((240 + x) * 256 + 10) { p with pc := (p.pc + 2) % 65536 } =
      Except.ok (pauseUntilKeyPressed x { p with pc := (p.pc + 2) % 65536 }, 0) := by
    simp only [execute, executeF, hk, hxo, hnn]
    norm_num
  constructor
  · simp only [Step, hop, hex]
    exact ⟨_, rfl⟩
  · intro p' info h
    simp only [Step, hop, hex] at h
    simp only [Except.ok.injEq, Prod.mk.injEq] at h
    obtain ⟨h1, -⟩ := h
    subst h1
    rcases hscan : scanKeys p.keyState 0 with _ | k0
    · have hall : ∀ k, k < 16 → p.keyState k = false := fun k hk16 =>
        scanKeys_eq_none p.keyState 16 0 rfl hscan k (Nat.zero_le k) hk16
      have hpause : pauseUntilKeyPressed x { p with pc := (p.pc + 2) % 65536 } =
          { p with pc := ((p.pc + 2) % 65536 + 65534) % 65536 } := by
        simp [pauseUntilKeyPressed, hscan]
      constructor
      · intro _
        constructor
        · rw [timerTick_pc, hpause]
          show ((p.pc + 2) % 65536 + 65534) % 65536 = p.pc
          omega
        · rw [timerTick_v, hpause]
      · intro k hk16 hkt _
        rw [hall k hk16] at hkt
        exact absurd hkt (by simp)
    · obtain ⟨hk0t, hk0lt, -, hk0min⟩ :=
        scanKeys_eq_some p.keyState 16 0 k0 rfl hscan
      have hpause : pauseUntilKeyPressed x { p with pc := (p.pc + 2) % 65536 } =
          { p with pc := (p.pc + 2) % 65536, v := upd p.v x k0 } := by
        simp [pauseUntilKeyPressed, hscan]
      constructor
      · intro hall
        rw [hall k0 hk0lt] at hk0t
        exact absurd hk0t (by simp)
      · intro k hk16 hkt hmin
        have hkk0 : k = k0 := by
          by_contra hne
          rcases Nat.lt_or_ge k k0 with hlt | hge
          · rw [hk0min k (Nat.zero_le k) hlt] at hkt
            exact absurd hkt (by simp)
          · have : k0 < k := by omega
            rw [hmin k0 this] at hk0t
            exact absurd hk0t (by simp)
        subst hkk0
        constructor
        · rw [timerTick_pc, hpause]
          show (p.pc + 2) % 65536 = p.pc + 2
          omega
        · rw [timerTick_v, hpause]
          exact upd_self p.v x k

/-- Witness for C5: opcode F00A at 0x200 with no key pressed; the
step succeeds and the no-key case applies. -/
theorem claim5_witness :
    (∃ r, Step 0 0 c5w = Except.ok r) ∧
    (∀ p' info, Step 0 0 c5w = Except.ok (p', info) →
      ((∀ k, k < 16 → c5w.keyState k = false) → p'.pc = c5w.pc ∧ p'.v = c5w.v) ∧
      (∀ k, k < 16 → c5w.keyState k = true →
        (∀ j, j < k → c5w.keyState j = false) →
        p'.pc = c5w.pc + 2 ∧ p'.v 0 = k)) :=
  claim5_waitKey c5w 0 0 0 (by decide) (by decide) (by decide) (by decide)

/-! ## C10: the misnamed FX1E operation adds to the index register -/

/-- Claim C10: with opcode FX1E at the program counter, the operation
named `setIToX` adds `v[x]` to the index register modulo 2^16, the
program counter advances only by the normal post-fetch 2, and no
register or memory cell changes. -/
theorem claim10_setIToX (p : Processor) (x rnd now : Nat) (hx : x < 16)
    (hpc : p.pc ≤ 4093) (hhi : p.memory p.pc = 240 + x)
    (hlo : p.memory (p.pc + 1) = 30) :
    (∃ r, Step rnd now p = Except.ok r) ∧
    (∀ p' info, Step rnd now p = Except.ok (p', info) →
      p'.i = (p.i + p.v x) % 65536 ∧ p'.pc = p.pc + 2 ∧
      p'.v = p.v ∧ p'.memory = p.memory) := by
  have hq0 : p.pc < 4095 := by omega
  have hq1 : p.pc + 1 < 4095 := by omega
  have hm0 : p.pc % 65536 = p.pc := by omega
  have hm1 : (p.pc + 1) % 65536 = p.pc + 1 := by omega
  have hop : OpcodeAt p p.pc = Except.ok ((240 + x) * 256 + 30) := by
    simp [OpcodeAt, readLoop, hq0, hq1, hm0, hm1, hhi, hlo]
  have hk : kindOf ((240 + x) * 256 + 30) = 15 := by unfold kindOf; omega
  have hxo : xOf ((240 + x) * 256 + 30) = x := by unfold xOf; omega
  have hnn : nnOf ((240 + x) * 256 + 30) = 30 := by unfold nnOf; omega
  have hex : execute rnd ((240 + x) * 256 + 30) { p with pc := (p.pc + 2) % 65536 } =
      Except.ok (setIToX x { p with pc := (p.pc + 2) % 65536 }, 0) := by
    simp only [execute, executeF, hk, hxo, hnn]
    norm_num
  constructor
  · simp only [Step, hop, hex]
    exact ⟨_, rfl⟩
  · intro p' info h
    simp only [Step, hop, hex] at h
    simp only [Except.ok.injEq, Prod.mk.injEq] at h
    obtain ⟨h1, -⟩ := h
    subst h1
    refine ⟨?_, ?_, ?_, ?_⟩
    · rw [timerTick_i]
      rfl
    · rw [timerTick_pc]
      show (p.pc + 2) % 65536 = p.pc + 2
      omega
    · rw [timerTick_v]
      rfl
    · rw [timerTick_memory]
      rfl

/-- Witness for C10: opcode F01E at 0x200 with `i = 7`, `v[0] = 9`;
the step succeeds and yields `i = 16`. -/
theorem claim10_witness :
    (∃ r, Step 0 0 c10w = Except.ok r) ∧
    (∀ p' info, Step 0 0 c10w = Except.ok (p', info) →
      p'.i = (c10w.i + c10w.v 0) % 65536 ∧ p'.pc = c10w.pc + 2 ∧
      p'.v = c10w.v ∧ p'.memory = c10w.memory) :=
  claim10_setIToX c10w 0 0 0 (by decide) (by decide) (by decide) (by decide)

/-! ## C8: timers are decoupled from the instruction clock

No instruction handler touches `lastTimerUpdate`; only the timer
block of `Step` does.  The lemmas below establish this for every
branch of `execute`. -/

theorem map_pair_ok {e : Except Err Processor} {c : Nat} {q : Processor}
    {info : Nat} (h : Except.map (fun r => (r, c)) e = Except.ok (q, info)) :
    e = Except.ok q := by
  cases e with
  | error err => simp [Except.map] at h
  | ok r =>
    simp only [Except.map, Except.ok.injEq, Prod.mk.injEq] at h
    rw [h.1]

theorem callSubroutine_last (nnn : Nat) (p r : Processor)
    (h : callSubroutine nnn p = Except.ok r) :
    r.lastTimerUpdate = p.lastTimerUpdate := by
  unfold callSubroutine at h
  split at h
  · exact absurd h (by simp)
  · simp only [Except.ok.injEq] at h
    subst h
    rfl

theorem returnFromSubroutine_last (p r : Processor)
    (h : returnFromSubroutine p = Except.ok r) :
    r.lastTimerUpdate = p.lastTimerUpdate := by
  unfold returnFromSubroutine at h
  split at h
  · exact absurd h (by simp)
  · simp only [Except.ok.injEq] at h
    subst h
    rfl

theorem drawSprite_last (vx vy n : Nat) (p r : Processor)
    (h : drawSprite vx vy n p = Except.ok r) :
    r.lastTimerUpdate = p.lastTimerUpdate := by
  simp only [drawSprite] at h
  split at h
  · exact absurd h (by simp)
  · simp only [Except.ok.injEq] at h
    subst h
    rfl

theorem binaryCodedDecimal_last (x : Nat) (p r : Processor)
    (h : binaryCodedDecimal x p = Except.ok r) :
    r.lastTimerUpdate = p.lastTimerUpdate := by
  simp only [binaryCodedDecimal] at h
  split at h
  · simp only [Except.ok.injEq] at h
    subst h
    rfl
  · exact absurd h (by simp)

theorem setRegsLoop_last : ∀ (d x : Nat) (p : Processor) (k : Nat)
    (q : Processor), x + 1 - k = d → setRegsLoop x p k = Except.ok q →
    q.lastTimerUpdate = p.lastTimerUpdate := by
  intro d
  induction d with
  | zero =>
    intro x p k q hd h
    unfold setRegsLoop at h
    rw [if_neg (by omega)] at h
    simp only [Except.ok.injEq] at h
    subst h
    rfl
  | succ d ih =>
    intro x p k q hd h
    unfold setRegsLoop at h
    by_cases hk : k ≤ x
    · rw [if_pos hk] at h
      by_cases ha : (p.i + k) % 65536 < 4096
      · rw [if_pos ha] at h
        exact ih x { p with memory := upd p.memory ((p.i + k) % 65536) (p.v k) }
          (k + 1) q (by omega) h
      · rw [if_neg ha] at h
        exact absurd h (by simp)
    · rw [if_neg hk] at h
      simp only [Except.ok.injEq] at h
      subst h
      rfl

theorem setMemsLoop_last : ∀ (d x : Nat) (p : Processor) (k : Nat)
    (q : Processor), x + 1 - k = d → setMemsLoop x p k = Except.ok q →
    q.lastTimerUpdate = p.lastTimerUpdate := by
  intro d
  induction d with
  | zero =>
    intro x p k q hd h
    unfold setMemsLoop at h
    rw [if_neg (by omega)] at h
    simp only [Except.ok.injEq] at h
    subst h
    rfl
  | succ d ih =>
    intro x p k q hd h
    unfold setMemsLoop at h
    by_cases hk : k ≤ x
    · rw [if_pos hk] at h
      by_cases ha : (p.i + k) % 65536 < 4096
      · rw [if_pos ha] at h
        exact ih x { p with v := upd p.v k (p.memory ((p.i + k) % 65536)) }
          (k + 1) q (by omega) h
      · rw [if_neg ha] at h
        exact absurd h (by simp)
    · rw [if_neg hk] at h
      simp only [Except.ok.injEq] at h
      subst h
      rfl

theorem setRegistersToMemory_last (x : Nat) (p r : Processor)
    (h : setRegistersToMemory x p = Except.ok r) :
    r.lastTimerUpdate = p.lastTimerUpdate :=
  setRegsLoop_last (x + 1) x p 0 r (by omega) h

theorem setMemoryToRegisters_last (x : Nat) (p r : Processor)
    (h : setMemoryToRegisters x p = Except.ok r) :
    r.lastTimerUpdate = p.lastTimerUpdate :=
  setMemsLoop_last (x + 1) x p 0 r (by omega) h

theorem execute0_last (opcode : Nat) (p q : Processor) (info : Nat)
    (h : execute0 opcode p = Except.ok (q, info)) :
    q.lastTimerUpdate = p.lastTimerUpdate := by
  unfold execute0 at h
  repeat' split at h
  all_goals first
    | exact Except.noConfusion h
    | exact returnFromSubroutine_last _ _ (map_pair_ok h)
    | (simp only [Except.ok.injEq, Prod.mk.injEq] at h
       obtain ⟨h1, -⟩ := h
       subst h1
       rfl)

theorem execute8_last (opcode : Nat) (p q : Processor) (info : Nat)
    (h : execute8 opcode p = Except.ok (q, info)) :
    q.lastTimerUpdate = p.lastTimerUpdate := by
  unfold execute8 at h
  repeat' split at h
  all_goals first
    | exact Except.noConfusion h
    | (simp only [Except.ok.injEq, Prod.mk.injEq] at h
       obtain ⟨h1, -⟩ := h
       subst h1
       first
         | rfl
         | (simp only [setXToY, orXY, andXY, xorXY, addXY, subtractYFromX,
              subtractXFromY, shiftRightX, shiftLeftX]
            repeat' split
            all_goals rfl))

theorem executeE_last (opcode : Nat) (p q : Processor) (info : Nat)
    (h : executeE opcode p = Except.ok (q, info)) :
    q.lastTimerUpdate = p.lastTimerUpdate := by
  unfold executeE at h
  repeat' split at h
  all_goals first
    | exact Except.noConfusion h
    | (simp only [Except.ok.injEq, Prod.mk.injEq] at h
       obtain ⟨h1, -⟩ := h
       subst h1
       first
         | rfl
         | (simp only [stepIfKeyDown, stepIfKeyUp]
            repeat' split
            all_goals rfl))

theorem executeF_last (opcode : Nat) (p q : Processor) (info : Nat)
    (h : executeF opcode p = Except.ok (q, info)) :
    q.lastTimerUpdate = p.lastTimerUpdate := by
  unfold executeF at h
  repeat' split at h
  all_goals first
    | exact Except.noConfusion h
    | exact binaryCodedDecimal_last _ _ _ (map_pair_ok h)
    | exact setRegistersToMemory_last _ _ _ (map_pair_ok h)
    | exact setMemoryToRegisters_last _ _ _ (map_pair_ok h)
    | (simp only [Except.ok.injEq, Prod.mk.injEq] at h
       obtain ⟨h1, -⟩ := h
       subst h1
       first
         | rfl
         | (simp only [setXToDelay, pauseUntilKeyPressed, setDelayToX,
              setSoundToX, setIToX, setIToSymbol]
            repeat' split
            all_goals rfl))

/-- No branch of `execute` alters the elapsed-time reference: only
the timer block of `Step` does. -/
theorem execute_last (rnd opcode : Nat) (p q : Processor) (info : Nat)
    (h : execute rnd opcode p = Except.ok (q, info)) :
    q.lastTimerUpdate = p.lastTimerUpdate := by
  have hlt : kindOf opcode < 16 := by unfold kindOf; omega
  unfold execute at h
  set k := kindOf opcode with hkdef
  interval_cases k <;> norm_num at h
  case _ => exact execute0_last _ _ _ _ h
  all_goals first
    | exact execute8_last _ _ _ _ h
    | exact executeE_last _ _ _ _ h
    | exact executeF_last _ _ _ _ h
    | exact callSubroutine_last _ _ _ (map_pair_ok h)
    | exact drawSprite_last _ _ _ _ _ (map_pair_ok h)
    | (obtain ⟨h1, -⟩ := h
       subst h1
       first
         | rfl
         | (simp only [jumpToLocation, stepIfXEqualsNN, stepIfXNotEqualsNN,
              stepIfXEqualsY, stepIfXNotEqualsY, setXToNN, addNNToX,
              setIToNNN, jumpWithOffset, setXToRandom]
            repeat' split
            all_goals rfl))

/-- Claim C8: in every successful `Step`, the final state is the
timer block applied to the post-instruction state, whose elapsed-time
reference still equals the pre-step one; the timer block decrements
each timer at most once, exactly when at least 1/60 s (TimerRate
nanoseconds) elapsed since the last tick, flooring at 0 and resetting
the reference — never once per instruction. -/
theorem claim8_timers (p : Processor) (rnd now : Nat) (p' : Processor)
    (info : Nat) (h : Step rnd now p = Except.ok (p', info)) :
    (∃ q, p' = timerTick q now ∧ q.lastTimerUpdate = p.lastTimerUpdate) ∧
    (∀ q : Processor,
      (timerTick q now).delay =
        (if TimerRate ≤ now - q.lastTimerUpdate then
          (if 0 < q.delay then q.delay - 1 else q.delay) else q.delay) ∧
      (timerTick q now).sound =
        (if TimerRate ≤ now - q.lastTimerUpdate then
          (if 0 < q.sound then q.sound - 1 else q.sound) else q.sound) ∧
      (timerTick q now).lastTimerUpdate =
        (if TimerRate ≤ now - q.lastTimerUpdate then now
          else q.lastTimerUpdate) ∧
      q.delay - 1 ≤ (timerTick q now).delay ∧
      (timerTick q now).delay ≤ q.delay ∧
      q.sound - 1 ≤ (timerTick q now).sound ∧
      (timerTick q now).sound ≤ q.sound) := by
  constructor
  · rcases hop : OpcodeAt p p.pc with e | op
    · rw [Step, hop] at h
      exact Except.noConfusion h
    · simp only [Step, hop] at h
      rcases hex : execute rnd op { p with pc := (p.pc + 2) % 65536 } with e | qi
      · simp only [hex] at h
        exact Except.noConfusion h
      · obtain ⟨q, info0⟩ := qi
        simp only [hex] at h
        simp only [Except.ok.injEq, Prod.mk.injEq] at h
        obtain ⟨h1, -⟩ := h
        refine ⟨q, h1.symm, ?_⟩
        exact execute_last rnd op { p with pc := (p.pc + 2) % 65536 } q info0 hex
  · intro q
    by_cases hc : TimerRate ≤ now - q.lastTimerUpdate
    · refine ⟨?_, ?_, ?_, ?_, ?_, ?_, ?_⟩ <;>
        simp only [timerTick, if_pos hc] <;>
        first
          | rfl
          | (by_cases hd : 0 < q.delay <;> simp [hd] <;> omega)
          | (by_cases hs : 0 < q.sound <;> simp [hs] <;> omega)
    · refine ⟨?_, ?_, ?_, ?_, ?_, ?_, ?_⟩ <;>
        simp only [timerTick, if_neg hc] <;>
        first
          | trivial
          | omega

/-- Witness for C8: the concrete step of the 6005 opcode at time 0
(no 1/60 s elapsed), applied to the theorem's first conjunct. -/
theorem claim8_witness :
    ∃ q, c8w' = timerTick q 0 ∧ q.lastTimerUpdate = c8w.lastTimerUpdate :=
  (claim8_timers c8w 0 0 c8w' 0 rfl).1

end Chip8
